import Mathlib

/-!
Verification development for the `nixos-opensearch-generator` pipeline
(`src/main.rs`).  The Rust source is shallowly embedded below:

* `Url` models the already-parsed `reqwest::Url` value as its
  serialization split into the part before the query (`base`) and an
  optional query string (`query`); fragments play no role in the program
  and are not modelled.  `Url.set_query none` models
  `Url::set_query(None)` and `Url.query_pairs` models
  `Url::query_pairs()` (split on `&`, dropping empty pieces, splitting
  each piece at the first `=`, percent- and plus-decoding both halves).
* Machine integers (`u16` widths and heights) are `Nat` with an explicit
  `% 65536` where the source's `u16` multiplication can wrap.
* Panics (`assert!`, `expect`) are modelled as explicit error results.
-/

namespace OpenSearch

/-- The serialization of a parsed absolute URL: `base` is everything
before the query separator, `query` is the query string when one is
present (`some ""` for a URL ending in a bare `?`). -/
structure Url where
  base : String
  query : Option String
deriving DecidableEq, Repr

/-- `Url::set_query` from the `url` crate: replaces the query component. -/
def Url.set_query (u : Url) (q : Option String) : Url :=
  { u with query := q }

/-- Display/serialization of a `Url`: the query string is appended after
a `?` when present. -/
def Url.toString (u : Url) : String :=
  u.base ++ (match u.query with
    | some q => "?" ++ q
    | none => "")

/-- Hexadecimal digit value, as used by percent-decoding. -/
def hexVal (c : Char) : Option Nat :=
  if '0' ≤ c ∧ c ≤ '9' then some (c.toNat - '0'.toNat)
  else if 'a' ≤ c ∧ c ≤ 'f' then some (c.toNat - 'a'.toNat + 10)
  else if 'A' ≤ c ∧ c ≤ 'F' then some (c.toNat - 'A'.toNat + 10)
  else none

/-- Decoding applied by `form_urlencoded` to each name and value:
`+` becomes a space and `%XY` (two hex digits) becomes the character with
code `16*X + Y`; a `%` not followed by two hex digits is kept as is. -/
def percentDecode : List Char → List Char
  | [] => []
  | '%' :: a :: b :: rest =>
    match hexVal a, hexVal b with
    | some x, some y => Char.ofNat (16 * x + y) :: percentDecode rest
    | _, _ => '%' :: percentDecode (a :: b :: rest)
  | c :: rest => (if c = '+' then ' ' else c) :: percentDecode rest

/-- Prepend `x` to the first piece of a split result. -/
def consFirst (x : List Char) : List (List Char) → List (List Char)
  | [] => [x]
  | h :: t => (x ++ h) :: t

/-- Split a character list at every `&` (used by query-pair parsing). -/
def splitAmp : List Char → List (List Char)
  | [] => [[]]
  | c :: cs => if c = '&' then [] :: splitAmp cs else consFirst [c] (splitAmp cs)

/-- Split a character list at the first `=`; when no `=` occurs the
second component is empty (`form_urlencoded`: a piece without `=` is a
name with an empty value). -/
def splitEq : List Char → List Char × List Char
  | [] => ([], [])
  | c :: cs =>
    if c = '=' then ([], cs)
    else
      let (a, b) := splitEq cs
      (c :: a, b)

/-- `form_urlencoded::parse` over a raw query string: split on `&`,
drop empty pieces, split each piece at the first `=`, decode both
halves. -/
def parseQueryPairs (q : String) : List (String × String) :=
  ((splitAmp q.data).filter (fun piece => !piece.isEmpty)).map
    (fun piece =>
      let (n, v) := splitEq piece
      (String.mk (percentDecode n), String.mk (percentDecode v)))

/-- `Url::query_pairs`: the parsed key/value pairs of the query string,
empty when the URL has no query. -/
def Url.query_pairs (u : Url) : List (String × String) :=
  match u.query with
  | none => []
  | some q => parseQueryPairs q

/-- `struct OpenSearchImage` (`main.rs`): MIME type, optional `u16`
dimensions, and the icon URL.  The MIME type is modelled as its string
form. -/
structure OpenSearchImage where
  image_type : String
  width : Option Nat
  height : Option Nat
  url : Url
deriving DecidableEq, Repr

/-- `struct OpenSearchUrl` (`main.rs`): MIME type and template URL. -/
structure OpenSearchUrl where
  template_type : String
  template : Url
deriving DecidableEq, Repr

/-- `struct OpenSearchDescription` (`main.rs`). -/
structure OpenSearchDescription where
  short_name : String
  description : String
  images : List OpenSearchImage
  urls : List OpenSearchUrl
deriving DecidableEq, Repr

/-- `impl Ord for OpenSearchImage`: images of equal MIME type compare by
`u16` area, larger first (so `lt` means "sorts earlier"); images of
different MIME types compare as equal.  The source multiplies `u16`
values, which wraps modulo `2^16` in a release build (and panics in a
debug build); the wrap is the explicit `% 65536`. -/
def OpenSearchImage.cmp (self other : OpenSearchImage) : Ordering :=
  if self.image_type = other.image_type then
    let width := self.width.getD 0
    let height := self.height.getD 0
    let other_width := other.width.getD 0
    let other_height := other.height.getD 0
    compare (other_width * other_height % 65536) (width * height % 65536)
  else
    Ordering.eq

/-- Insertion step of the stable sort that models `Vec::sort` (Rust's
stable slice sort): `x` moves past every element it compares `gt`
against and lands before the first element it does not. -/
def insertImage (x : OpenSearchImage) : List OpenSearchImage → List OpenSearchImage
  | [] => [x]
  | y :: ys =>
    if OpenSearchImage.cmp x y = Ordering.gt then y :: insertImage x ys
    else x :: y :: ys

/-- Stable sort of the image list by `OpenSearchImage.cmp`, modelling
`sorted_images.sort()` in `OpenSearchDescription::into_nix`. -/
def sortImages : List OpenSearchImage → List OpenSearchImage
  | [] => []
  | x :: xs => insertImage x (sortImages xs)

/-- Icon selection as performed inside `into_nix`: clone the image list,
sort it, take the first element if any. -/
def selectIcon (images : List OpenSearchImage) : Option OpenSearchImage :=
  (sortImages images).head?

/-- `enum OpenSearchDescriptionXmlValue` (`main.rs`): the flat
tagged-value sequence produced by the XML parse; `Other` covers every
unrecognized element. -/
inductive OpenSearchDescriptionXmlValue where
  | ShortName (value : String)
  | Description (value : String)
  | Image (image : OpenSearchImage)
  | Url (url : OpenSearchUrl)
  | Other
deriving DecidableEq, Repr

/-- The panics raised by the `From<OpenSearchDescriptionXml>`
conversion (`OnceCell::set(..).expect(..)`), carrying the panic
message. -/
inductive NormalizeError where
  | DuplicateField (message : String)
deriving DecidableEq, Repr

/-- The accumulator of the `From<OpenSearchDescriptionXml>` loop:
the two growing vectors and the two `OnceCell` slots. -/
structure NormalizeState where
  images : List OpenSearchImage
  urls : List OpenSearchUrl
  short_name : Option String
  description : Option String
deriving DecidableEq, Repr

/-- One iteration of the `for xml_value in value.values` loop in
`From<OpenSearchDescriptionXml> for OpenSearchDescription`. -/
def normalizeStep (state : NormalizeState) :
    OpenSearchDescriptionXmlValue → Except NormalizeError NormalizeState
  | .Url url => .ok { state with urls := state.urls ++ [url] }
  | .Image image => .ok { state with images := state.images ++ [image] }
  | .ShortName provided_name =>
    match state.short_name with
    | some _ => .error (.DuplicateField "Multiple short name values were provided")
    | none => .ok { state with short_name := some provided_name }
  | .Description provided_description =>
    match state.description with
    | some _ => .error (.DuplicateField "Multiple descriptions were provided")
    | none => .ok { state with description := some provided_description }
  | .Other => .ok state

/-- The whole loop, threading the accumulator. -/
def normalizeFrom (state : NormalizeState) :
    List OpenSearchDescriptionXmlValue → Except NormalizeError NormalizeState
  | [] => .ok state
  | v :: vs =>
    match normalizeStep state v with
    | .error e => .error e
    | .ok s => normalizeFrom s vs

/-- `From<OpenSearchDescriptionXml> for OpenSearchDescription`: run the
loop from empty accumulators, then build the record, defaulting the two
singleton slots to the empty string (`unwrap_or_default`). -/
def normalize (values : List OpenSearchDescriptionXmlValue) :
    Except NormalizeError OpenSearchDescription :=
  match normalizeFrom ⟨[], [], none, none⟩ values with
  | .error e => .error e
  | .ok s =>
    .ok { short_name := s.short_name.getD ""
          description := s.description.getD ""
          images := s.images
          urls := s.urls }

/-- The `Url` payloads of a tagged-value sequence, in encountered order. -/
def urlValues (values : List OpenSearchDescriptionXmlValue) : List OpenSearchUrl :=
  values.filterMap (fun v =>
    match v with
    | .Url u => some u
    | _ => none)

/-- The `Image` payloads of a tagged-value sequence, in encountered order. -/
def imageValues (values : List OpenSearchDescriptionXmlValue) : List OpenSearchImage :=
  values.filterMap (fun v =>
    match v with
    | .Image i => some i
    | _ => none)

/-- The `ShortName` payloads of a tagged-value sequence. -/
def shortNameValues (values : List OpenSearchDescriptionXmlValue) : List String :=
  values.filterMap (fun v =>
    match v with
    | .ShortName s => some s
    | _ => none)

/-- The `Description` payloads of a tagged-value sequence. -/
def descriptionValues (values : List OpenSearchDescriptionXmlValue) : List String :=
  values.filterMap (fun v =>
    match v with
    | .Description s => some s
    | _ => none)

/-- Concatenation of the chunks appended by iterating `into_nix` over a
list (the `for_each`/`for` loops append to the shared buffer). -/
def concatMapStr (f : α → String) : List α → String
  | [] => ""
  | x :: xs => f x ++ concatMapStr f xs

/-- One entry of a `params` list. -/
def pairNix (p : String × String) : String :=
  "                \x7b\n"
  ++ ("                    name = \"" ++ p.1 ++ "\";\n")
  ++ ("                    value = \"" ++ p.2 ++ "\";\n")
  ++ "                \x7d\n"

/-- `OpenSearchUrl::into_nix`: the chunk this URL appends to the buffer.
The query is stripped from the template before display, and a `params`
list is emitted exactly when the original URL has a query component. -/
def OpenSearchUrl.into_nix (u : OpenSearchUrl) : String :=
  let queryless_template := u.template.set_query none
  "        \x7b\n"
  ++ ("            template = \"" ++ queryless_template.toString ++ "\";\n")
  ++ ("            type = \"" ++ u.template_type ++ "\";\n")
  ++ (if u.template.query.isSome then
        "            params = [\n"
        ++ concatMapStr pairNix u.template.query_pairs
        ++ "            ];\n"
      else "")
  ++ "        \x7d\n"

/-- `OpenSearchImage::into_nix`: the `iconUpdateURL` line. -/
def OpenSearchImage.into_nix (i : OpenSearchImage) : String :=
  "    iconUpdateURL = \"" ++ Url.toString i.url ++ "\";\n"

/-- Result of running `OpenSearchDescription::into_nix` against a
mutable buffer: either the assertion fired (`panicked`, with the buffer
in the state it had at the panic) or the call completed (`done`, with
the final buffer). -/
inductive NixResult where
  | panicked (message : String) (buf : String)
  | done (buf : String)
deriving DecidableEq, Repr

/-- The `assert!` message at the top of
`OpenSearchDescription::into_nix`. -/
def assertMessage : String :=
  "OpenSearch requires at least one defined URL; none were found."

/-- The full text appended by `OpenSearchDescription::into_nix` after
its assertion passes: header with the short name, the URL blocks in
order, the list closer, the icon line for the first image of the sorted
copy (if any), and the description/footer. -/
def OpenSearchDescription.nixBody (d : OpenSearchDescription) : String :=
  ("\"" ++ d.short_name ++ "\" = \x7b\n    urls = [\n")
  ++ concatMapStr OpenSearchUrl.into_nix d.urls
  ++ "    ];\n"
  ++ (match selectIcon d.images with
      | some image => image.into_nix
      | none => "")
  ++ ("    description = \"" ++ d.description ++ "\";\n\x7d;")

/-- `OpenSearchDescription::into_nix`: the leading `assert!` fires
before anything is appended when `urls` is empty; otherwise the body is
appended to the buffer. -/
def OpenSearchDescription.into_nix (d : OpenSearchDescription) (buf : String) : NixResult :=
  if d.urls.isEmpty then .panicked assertMessage buf
  else .done (buf ++ d.nixBody)

/-- A parsed HTML element: tag name, attributes in document order, and
child elements (text nodes play no role in `select_opensearch_url` and
are not modelled). -/
structure HtmlElement where
  name : String
  attrs : List (String × String)
  children : List HtmlElement

/-- `const META_TAG_REL` (`main.rs`). -/
def META_TAG_REL : String := "search"

/-- `const META_TAG_TYPE` (`main.rs`). -/
def META_TAG_TYPE : String := "application/opensearchdescription+xml"

/-- Attribute lookup by name (first match). -/
def HtmlElement.attr (e : HtmlElement) (name : String) : Option String :=
  (e.attrs.find? (fun a => a.1 == name)).map (fun a => a.2)

/-- The nested condition checked on each child of a `head` element:
`rel == "search"` and `type == "application/opensearchdescription+xml"`
(each `attr(..).map(..).unwrap_or_default()`). -/
def isOpenSearchLink (e : HtmlElement) : Bool :=
  ((e.attr "rel").map (fun attr => attr == META_TAG_REL)).getD false
    && ((e.attr "type").map (fun attr => attr == META_TAG_TYPE)).getD false

/-- The inner loop of `select_opensearch_url`: first qualifying child of
a `head` element, if any. -/
def scanHead : List HtmlElement → Option HtmlElement
  | [] => none
  | c :: cs => if isOpenSearchLink c then some c else scanHead cs

/-- The outer `'root` loop of `select_opensearch_url`: walk the root's
children in order; for every child named `head` scan its children, and
stop at the first qualifying element found anywhere (the `break 'root`
only runs after a qualifying element is processed, so a `head` without a
qualifying child does not stop the outer loop). -/
def scanRoot : List HtmlElement → Option HtmlElement
  | [] => none
  | c :: cs =>
    if c.name = "head" then
      match scanHead c.children with
      | some e => some e
      | none => scanRoot cs
    else scanRoot cs

/-- The panics of `select_opensearch_url`, in the order they can fire:
no qualifying element at all, a qualifying element without `href`, or a
`href` that does not resolve against the current URL. -/
inductive LocateError where
  | NotFound
  | MissingHref
  | InvalidUrl
deriving DecidableEq, Repr

/-- `select_opensearch_url` (`main.rs`): find the first qualifying
element, read its `href`, and resolve it against the current URL.  URL
resolution (`Url::join`) is an external collaborator and is passed in as
the partial function `join`. -/
def select_opensearch_url (join : String → String → Option String)
    (current_url : String) (document_root : HtmlElement) : Except LocateError String :=
  match scanRoot document_root.children with
  | none => .error .NotFound
  | some e =>
    match e.attr "href" with
    | none => .error .MissingHref
    | some url_raw =>
      match join current_url url_raw with
      | none => .error .InvalidUrl
      | some url => .ok url

/-- Recognizer for the `DuplicateField` failure of the normalizer. -/
def NormalizeError.isDuplicateField : NormalizeError → Bool
  | .DuplicateField _ => true

/-- A normalization outcome that ended in a `DuplicateField` panic. -/
def failedWithDuplicateField : Except NormalizeError α → Bool
  | .error e => e.isDuplicateField
  | .ok _ => false

/-- Resolution of a set-once slot after the loop: the already-stored
value wins, otherwise the first value of the list (if any). -/
def slotMerge (slot : Option String) (values : List String) : Option String :=
  match slot with
  | some s => some s
  | none => values.head?

/-- Example URL template with a query string (`main.rs` test data). -/
def urlHtml : OpenSearchUrl :=
  { template_type := "text/html"
    template := { base := "https://example.com/search", query := some "q=\x7bsearchTerms\x7d" } }

/-- Example URL template without a query string. -/
def urlNoQuery : OpenSearchUrl :=
  { template_type := "text/html"
    template := { base := "https://example.com/search", query := none } }

/-- Example URL template whose URL ends in a bare `?` (present but empty
query string). -/
def urlEmptyQuery : OpenSearchUrl :=
  { template_type := "text/html"
    template := { base := "https://example.com/search", query := some "" } }

/-- Example 16×16 icon (`main.rs` test data). -/
def imgIcon16 : OpenSearchImage :=
  { image_type := "image/x-icon", width := some 16, height := some 16
    url := { base := "https://example.com/image.ico", query := none } }

/-- Example 32×32 icon (`main.rs` test data). -/
def imgIcon32 : OpenSearchImage :=
  { image_type := "image/x-icon", width := some 32, height := some 32
    url := { base := "https://example.com/image.ico", query := none } }

/-- A 256×256 PNG: its true area `65536` overflows a `u16`. -/
def imgPng256 : OpenSearchImage :=
  { image_type := "image/png", width := some 256, height := some 256
    url := { base := "https://example.com/big.png", query := none } }

/-- A 16×16 PNG of the same MIME type as `imgPng256`. -/
def imgPng16 : OpenSearchImage :=
  { image_type := "image/png", width := some 16, height := some 16
    url := { base := "https://example.com/small.png", query := none } }

/-- The icon comparator as §4.4 of the design words it: exact integer
product `width × height` (0 for a missing dimension), larger area first,
and `eq` across differing MIME types.  Spec-side definition, kept beside
the source's `OpenSearchImage.cmp` for comparison. -/
def cmpExactArea (self other : OpenSearchImage) : Ordering :=
  if self.image_type = other.image_type then
    compare (other.width.getD 0 * other.height.getD 0)
      (self.width.getD 0 * self.height.getD 0)
  else
    Ordering.eq

/-- A `head` element with no qualifying child. -/
def headWithoutLink : HtmlElement :=
  { name := "head", attrs := [],
    children := [HtmlElement.mk "link" [("rel", "stylesheet"), ("href", "style.css")] []] }

/-- A qualifying opensearch `link` element pointing at `/os.xml`. -/
def openSearchLink : HtmlElement :=
  HtmlElement.mk "link"
    [("rel", "search"),
      ("type", "application/opensearchdescription+xml"), ("href", "/os.xml")] []

/-- A `head` element whose only child is a qualifying opensearch link. -/
def headWithLink : HtmlElement :=
  { name := "head", attrs := [], children := [openSearchLink] }

/-- A root with two sibling `head` elements; only the second holds a
qualifying link. -/
def twoHeadDoc : HtmlElement :=
  { name := "html", attrs := [], children := [headWithoutLink, headWithLink] }

/-- URL resolution by plain concatenation: a total stand-in for
`Url::join` in concrete examples. -/
def joinConcat (base href : String) : Option String := some (base ++ href)

/-- `true` when the string holds no newline character. -/
def noNl (s : String) : Bool := s.data.all (fun c => c != '\n')

/-- Split a character list at every newline; always returns at least one
(possibly empty) line. -/
def splitNl : List Char → List (List Char)
  | [] => [[]]
  | c :: cs => if c = '\n' then [] :: splitNl cs else consFirst [c] (splitNl cs)

/-- Number of lines of `s` that are exactly `t`. -/
def lineCount (t : List Char) (s : List Char) : Nat :=
  (splitNl s).count t

/-- The fixed part of a URL block: opener, query-stripped template line,
type line (claim-side decomposition of `OpenSearchUrl.into_nix`). -/
def urlBlockPrefix (u : OpenSearchUrl) : String :=
  "        \x7b\n"
  ++ ("            template = \"" ++ (u.template.set_query none).toString ++ "\";\n")
  ++ ("            type = \"" ++ u.template_type ++ "\";\n")

/-- The `params` block for a list of key/value pairs. -/
def paramsBlock (pairs : List (String × String)) : String :=
  "            params = [\n" ++ concatMapStr pairNix pairs ++ "            ];\n"

/-- The closer of a URL block. -/
def urlBlockSuffix : String := "        \x7d\n"

/-- All strings a URL block interpolates are newline-free: its MIME
type, the template URL text, and every decoded query name and value. -/
def urlNewlineFree (u : OpenSearchUrl) : Bool :=
  noNl u.template_type && noNl u.template.base
    && u.template.query_pairs.all (fun p => noNl p.1 && noNl p.2)

/-- All strings interpolated into the emitted text of a descriptor are
newline-free (the design's "input strings never need escaping"
assumption, restricted to what line counting needs). -/
def newlineFree (d : OpenSearchDescription) : Bool :=
  noNl d.short_name && noNl d.description
    && d.urls.all urlNewlineFree
    && d.images.all (fun i => noNl (Url.toString i.url))

/-- The lines (newline-separated pieces) of one `params` entry. -/
def pairLines (p : String × String) : List (List Char) :=
  ["                \x7b".data,
    "                    name = \"".data ++ p.1.data ++ "\";".data,
    "                    value = \"".data ++ p.2.data ++ "\";".data,
    "                \x7d".data]

/-- The lines of one URL block as `OpenSearchUrl.into_nix` emits it. -/
def urlLines (u : OpenSearchUrl) : List (List Char) :=
  "        \x7b".data
    :: ("            template = \"".data
        ++ (u.template.set_query none).toString.data ++ "\";".data)
    :: ("            type = \"".data ++ u.template_type.data ++ "\";".data)
    :: ((if u.template.query.isSome then
          "            params = [".data
            :: ((u.template.query_pairs.map pairLines).flatten
              ++ ["            ];".data])
        else [])
      ++ ["        \x7d".data])

/-- The lines of the whole emitted body of a descriptor. -/
def descLines (d : OpenSearchDescription) : List (List Char) :=
  ("\"".data ++ d.short_name.data ++ "\" = \x7b".data)
    :: "    urls = [".data
    :: ((d.urls.map urlLines).flatten
      ++ ("    ];".data
        :: ((match selectIcon d.images with
            | some i =>
              ["    iconUpdateURL = \"".data ++ (Url.toString i.url).data ++ "\";".data]
            | none => [])
          ++ ["    description = \"".data ++ d.description.data ++ "\";".data,
            "\x7d;".data])))

/-- Example descriptor with two URL templates and two icons. -/
def descExample : OpenSearchDescription :=
  { short_name := "Test", description := "Hi there",
    images := [imgIcon16, imgIcon32], urls := [urlHtml, urlNoQuery] }

/-! ### Theorems -/

theorem slotMerge_nil (o : Option String) : slotMerge o [] = o := by
  cases o <;> rfl

@[simp] theorem urlValues_nil : urlValues [] = [] := rfl

@[simp] theorem imageValues_nil : imageValues [] = [] := rfl

@[simp] theorem shortNameValues_nil : shortNameValues [] = [] := rfl

@[simp] theorem descriptionValues_nil : descriptionValues [] = [] := rfl

theorem urlValues_cons (v : OpenSearchDescriptionXmlValue)
    (vs : List OpenSearchDescriptionXmlValue) :
    urlValues (v :: vs) =
      (match v with
        | .Url u => u :: urlValues vs
        | _ => urlValues vs) := by
  cases v <;> rfl

theorem imageValues_cons (v : OpenSearchDescriptionXmlValue)
    (vs : List OpenSearchDescriptionXmlValue) :
    imageValues (v :: vs) =
      (match v with
        | .Image i => i :: imageValues vs
        | _ => imageValues vs) := by
  cases v <;> rfl

theorem shortNameValues_cons (v : OpenSearchDescriptionXmlValue)
    (vs : List OpenSearchDescriptionXmlValue) :
    shortNameValues (v :: vs) =
      (match v with
        | .ShortName s => s :: shortNameValues vs
        | _ => shortNameValues vs) := by
  cases v <;> rfl

theorem descriptionValues_cons (v : OpenSearchDescriptionXmlValue)
    (vs : List OpenSearchDescriptionXmlValue) :
    descriptionValues (v :: vs) =
      (match v with
        | .Description s => s :: descriptionValues vs
        | _ => descriptionValues vs) := by
  cases v <;> rfl

/-- On success, the loop of the normalizer appends exactly the `Image`
and `Url` payloads, in order, to the accumulator's collections. -/
theorem normalizeFrom_ok_collections :
    ∀ (vs : List OpenSearchDescriptionXmlValue) (st r : NormalizeState),
    normalizeFrom st vs = .ok r →
    r.images = st.images ++ imageValues vs ∧ r.urls = st.urls ++ urlValues vs := by
  intro vs
  induction vs with
  | nil =>
    intro st r h
    simp only [normalizeFrom, Except.ok.injEq] at h
    subst h
    simp
  | cons v vs ih =>
    intro st r h
    cases v with
    | Url u =>
      simp only [normalizeFrom, normalizeStep] at h
      obtain ⟨h1, h2⟩ := ih _ _ h
      simp only [h1, h2, urlValues_cons, imageValues_cons]
      simp
    | Image i =>
      simp only [normalizeFrom, normalizeStep] at h
      obtain ⟨h1, h2⟩ := ih _ _ h
      simp only [h1, h2, urlValues_cons, imageValues_cons]
      simp
    | ShortName s =>
      cases hsn : st.short_name with
      | some x =>
        simp [normalizeFrom, normalizeStep, hsn] at h
      | none =>
        simp only [normalizeFrom, normalizeStep, hsn] at h
        obtain ⟨h1, h2⟩ := ih _ _ h
        simp only [h1, h2, urlValues_cons, imageValues_cons]
        simp
    | Description s =>
      cases hd : st.description with
      | some x =>
        simp [normalizeFrom, normalizeStep, hd] at h
      | none =>
        simp only [normalizeFrom, normalizeStep, hd] at h
        obtain ⟨h1, h2⟩ := ih _ _ h
        simp only [h1, h2, urlValues_cons, imageValues_cons]
        simp
    | Other =>
      simp only [normalizeFrom, normalizeStep] at h
      obtain ⟨h1, h2⟩ := ih _ _ h
      simp only [h1, h2, urlValues_cons, imageValues_cons]
      simp

/-- On success, the conversion produces exactly the `Url` payloads of
the input, in order. -/
theorem normalize_ok_urls (vs : List OpenSearchDescriptionXmlValue)
    (d : OpenSearchDescription) (h : normalize vs = .ok d) :
    d.urls = urlValues vs := by
  unfold normalize at h
  cases hn : normalizeFrom ⟨[], [], none, none⟩ vs with
  | error e => rw [hn] at h; cases h
  | ok s =>
    rw [hn] at h
    obtain ⟨_, h2⟩ := normalizeFrom_ok_collections vs _ _ hn
    cases h
    simpa using h2

/-- Whenever the remaining input together with the already-filled slots
holds two `ShortName` values or two `Description` values, the loop ends
in a `DuplicateField` panic. -/
theorem normalizeFrom_duplicate :
    ∀ (vs : List OpenSearchDescriptionXmlValue) (st : NormalizeState),
    (2 ≤ (shortNameValues vs).length + (if st.short_name.isSome then 1 else 0) ∨
      2 ≤ (descriptionValues vs).length + (if st.description.isSome then 1 else 0)) →
    failedWithDuplicateField (normalizeFrom st vs) = true := by
  intro vs
  induction vs with
  | nil =>
    intro st h
    simp only [shortNameValues_nil, descriptionValues_nil, List.length_nil,
      Nat.zero_add] at h
    rcases h with h | h <;> split at h <;> omega
  | cons v vs ih =>
    intro st h
    cases v with
    | Url u =>
      simp only [normalizeFrom, normalizeStep]
      apply ih
      simpa only [shortNameValues_cons, descriptionValues_cons] using h
    | Image i =>
      simp only [normalizeFrom, normalizeStep]
      apply ih
      simpa only [shortNameValues_cons, descriptionValues_cons] using h
    | Other =>
      simp only [normalizeFrom, normalizeStep]
      apply ih
      simpa only [shortNameValues_cons, descriptionValues_cons] using h
    | ShortName s =>
      cases hsn : st.short_name with
      | some x =>
        simp [normalizeFrom, normalizeStep, hsn, failedWithDuplicateField,
          NormalizeError.isDuplicateField]
      | none =>
        simp only [normalizeFrom, normalizeStep, hsn]
        apply ih
        simp [shortNameValues_cons, descriptionValues_cons, hsn] at h ⊢
        omega
    | Description s =>
      cases hd : st.description with
      | some x =>
        simp [normalizeFrom, normalizeStep, hd, failedWithDuplicateField,
          NormalizeError.isDuplicateField]
      | none =>
        simp only [normalizeFrom, normalizeStep, hd]
        apply ih
        simp [shortNameValues_cons, descriptionValues_cons, hd] at h ⊢
        omega

/-- When the input (plus the already-filled slots) holds at most one
`ShortName` and at most one `Description`, the loop succeeds and its
result is fully determined by the payload lists. -/
theorem normalizeFrom_ok_of_singletons :
    ∀ (vs : List OpenSearchDescriptionXmlValue) (st : NormalizeState),
    (shortNameValues vs).length + (if st.short_name.isSome then 1 else 0) ≤ 1 →
    (descriptionValues vs).length + (if st.description.isSome then 1 else 0) ≤ 1 →
    normalizeFrom st vs = .ok
      { images := st.images ++ imageValues vs
        urls := st.urls ++ urlValues vs
        short_name := slotMerge st.short_name (shortNameValues vs)
        description := slotMerge st.description (descriptionValues vs) } := by
  intro vs
  induction vs with
  | nil =>
    intro st h1 h2
    simp [normalizeFrom, slotMerge_nil]
  | cons v vs ih =>
    intro st h1 h2
    cases v with
    | Url u =>
      simp only [normalizeFrom, normalizeStep]
      rw [ih]
      · simp [urlValues_cons, imageValues_cons, shortNameValues_cons,
          descriptionValues_cons]
      · simpa [shortNameValues_cons] using h1
      · simpa [descriptionValues_cons] using h2
    | Image i =>
      simp only [normalizeFrom, normalizeStep]
      rw [ih]
      · simp [urlValues_cons, imageValues_cons, shortNameValues_cons,
          descriptionValues_cons]
      · simpa [shortNameValues_cons] using h1
      · simpa [descriptionValues_cons] using h2
    | Other =>
      simp only [normalizeFrom, normalizeStep]
      rw [ih]
      · simp [urlValues_cons, imageValues_cons, shortNameValues_cons,
          descriptionValues_cons]
      · simpa [shortNameValues_cons] using h1
      · simpa [descriptionValues_cons] using h2
    | ShortName s =>
      cases hsn : st.short_name with
      | some x =>
        exfalso
        simp [shortNameValues_cons, hsn] at h1
      | none =>
        have hv : shortNameValues vs = [] := by
          simp [shortNameValues_cons, hsn] at h1
          cases hvv : shortNameValues vs with
          | nil => rfl
          | cons a l =>
            rw [hvv] at h1
            simp at h1
        simp only [normalizeFrom, normalizeStep, hsn]
        rw [ih]
        · simp [urlValues_cons, imageValues_cons, shortNameValues_cons,
            descriptionValues_cons, slotMerge, hv]
        · simp [hv]
        · simpa [descriptionValues_cons] using h2
    | Description s =>
      cases hd : st.description with
      | some x =>
        exfalso
        simp [descriptionValues_cons, hd] at h2
      | none =>
        have hv : descriptionValues vs = [] := by
          simp [descriptionValues_cons, hd] at h2
          cases hvv : descriptionValues vs with
          | nil => rfl
          | cons a l =>
            rw [hvv] at h2
            simp at h2
        simp only [normalizeFrom, normalizeStep, hd]
        rw [ih]
        · simp [urlValues_cons, imageValues_cons, shortNameValues_cons,
            descriptionValues_cons, slotMerge, hv]
        · simpa [shortNameValues_cons] using h1
        · simp [hv]

/-- C1: the claim says the `From<OpenSearchDescriptionXml>` conversion
fails with `NoUrlsDefined` on a sequence with zero `Url` variants.  It
does not: on the empty sequence the conversion succeeds and returns a
descriptor whose `urls` collection is empty, refuting the claim. -/
theorem c1_counterexample :
    normalize [] =
      .ok { short_name := "", description := "", images := [], urls := [] } := by
  rfl

/-- C1 (amended): the conversion itself accepts a sequence with zero
`Url` variants and returns a descriptor with empty `urls`; the
no-URLs check is enforced later, by the leading assertion of
`into_nix`, which fails before anything is written. -/
theorem c1_no_urls_fails_at_emit (vs : List OpenSearchDescriptionXmlValue)
    (buf : String) (d : OpenSearchDescription)
    (hu : urlValues vs = []) (hd : normalize vs = .ok d) :
    d.urls = [] ∧ d.into_nix buf = .panicked assertMessage buf := by
  have h1 : d.urls = [] := by rw [normalize_ok_urls vs d hd, hu]
  refine ⟨h1, ?_⟩
  simp [OpenSearchDescription.into_nix, h1]

/-- C1 witness: the amended statement at the one-element sequence
holding only an ignorable variant. -/
theorem c1_no_urls_fails_at_emit_witness :
    urlValues [OpenSearchDescriptionXmlValue.Other] = [] ∧
    normalize [OpenSearchDescriptionXmlValue.Other] =
      .ok { short_name := "", description := "", images := [], urls := [] } ∧
    (({ short_name := "", description := "", images := [], urls := [] } :
        OpenSearchDescription).urls = [] ∧
      OpenSearchDescription.into_nix
        { short_name := "", description := "", images := [], urls := [] } "seed" =
        .panicked assertMessage "seed") :=
  ⟨by decide, by rfl,
    c1_no_urls_fails_at_emit [OpenSearchDescriptionXmlValue.Other] "seed" _
      (by decide) (by rfl)⟩

/-- C6: a tagged-value sequence holding two or more `ShortName`
variants, or two or more `Description` variants, always makes the
normalizer fail with a `DuplicateField` panic, whatever else it
contains. -/
theorem c6_duplicate_field (vs : List OpenSearchDescriptionXmlValue)
    (h : 2 ≤ (shortNameValues vs).length ∨ 2 ≤ (descriptionValues vs).length) :
    failedWithDuplicateField (normalize vs) = true := by
  have hf := normalizeFrom_duplicate vs ⟨[], [], none, none⟩ (by simpa using h)
  unfold normalize
  cases hn : normalizeFrom ⟨[], [], none, none⟩ vs with
  | error e =>
    rw [hn] at hf
    simp only [hn]
    exact hf
  | ok s =>
    rw [hn] at hf
    simp [failedWithDuplicateField] at hf

/-- C6 witness: two `ShortName` variants with an interleaved `Url`
variant still fail with `DuplicateField`. -/
theorem c6_duplicate_field_witness :
    (2 ≤ (shortNameValues [OpenSearchDescriptionXmlValue.ShortName "a",
        OpenSearchDescriptionXmlValue.Url urlHtml,
        OpenSearchDescriptionXmlValue.ShortName "b"]).length ∨
      2 ≤ (descriptionValues [OpenSearchDescriptionXmlValue.ShortName "a",
        OpenSearchDescriptionXmlValue.Url urlHtml,
        OpenSearchDescriptionXmlValue.ShortName "b"]).length) ∧
    failedWithDuplicateField (normalize [OpenSearchDescriptionXmlValue.ShortName "a",
      OpenSearchDescriptionXmlValue.Url urlHtml,
      OpenSearchDescriptionXmlValue.ShortName "b"]) = true :=
  ⟨Or.inl (by decide), c6_duplicate_field _ (Or.inl (by decide))⟩

/-- C7: a sequence with at most one `ShortName`, at most one
`Description`, and at least one `Url` normalizes to the descriptor whose
`urls`/`images` are exactly the `Url`/`Image` payloads in encountered
order, whose singleton fields are the payload when present and the empty
string otherwise, and in which `Other` variants leave no trace. -/
theorem c7_normalize_shape (vs : List OpenSearchDescriptionXmlValue)
    (h1 : (shortNameValues vs).length ≤ 1)
    (h2 : (descriptionValues vs).length ≤ 1)
    (_h3 : urlValues vs ≠ []) :
    normalize vs = .ok
      { short_name := ((shortNameValues vs).head?).getD ""
        description := ((descriptionValues vs).head?).getD ""
        images := imageValues vs
        urls := urlValues vs } := by
  have hr := normalizeFrom_ok_of_singletons vs ⟨[], [], none, none⟩
    (by simpa using h1) (by simpa using h2)
  unfold normalize
  rw [hr]
  simp [slotMerge]

/-- C7 witness: a five-element sequence exercising every variant. -/
theorem c7_normalize_shape_witness :
    (shortNameValues [OpenSearchDescriptionXmlValue.ShortName "Test",
        OpenSearchDescriptionXmlValue.Image imgIcon16,
        OpenSearchDescriptionXmlValue.Url urlHtml,
        OpenSearchDescriptionXmlValue.Description "Hi there",
        OpenSearchDescriptionXmlValue.Other]).length ≤ 1 ∧
    (descriptionValues [OpenSearchDescriptionXmlValue.ShortName "Test",
        OpenSearchDescriptionXmlValue.Image imgIcon16,
        OpenSearchDescriptionXmlValue.Url urlHtml,
        OpenSearchDescriptionXmlValue.Description "Hi there",
        OpenSearchDescriptionXmlValue.Other]).length ≤ 1 ∧
    urlValues [OpenSearchDescriptionXmlValue.ShortName "Test",
        OpenSearchDescriptionXmlValue.Image imgIcon16,
        OpenSearchDescriptionXmlValue.Url urlHtml,
        OpenSearchDescriptionXmlValue.Description "Hi there",
        OpenSearchDescriptionXmlValue.Other] ≠ [] ∧
    normalize [OpenSearchDescriptionXmlValue.ShortName "Test",
        OpenSearchDescriptionXmlValue.Image imgIcon16,
        OpenSearchDescriptionXmlValue.Url urlHtml,
        OpenSearchDescriptionXmlValue.Description "Hi there",
        OpenSearchDescriptionXmlValue.Other] = .ok
      { short_name := "Test", description := "Hi there",
        images := [imgIcon16], urls := [urlHtml] } :=
  ⟨by decide, by decide, by decide,
    c7_normalize_shape [OpenSearchDescriptionXmlValue.ShortName "Test",
      OpenSearchDescriptionXmlValue.Image imgIcon16,
      OpenSearchDescriptionXmlValue.Url urlHtml,
      OpenSearchDescriptionXmlValue.Description "Hi there",
      OpenSearchDescriptionXmlValue.Other] (by decide) (by decide) (by decide)⟩

/-- C10: a descriptor whose `urls` sequence is empty makes `into_nix`
fail through its leading assertion, and the buffer it was handed is
returned exactly as it was — nothing partial is written. -/
theorem c10_assert_before_write (d : OpenSearchDescription) (buf : String)
    (h : d.urls = []) : d.into_nix buf = .panicked assertMessage buf := by
  simp [OpenSearchDescription.into_nix, h]

/-- C10 witness: a descriptor with a name, a description and an image
but no URLs panics and leaves the buffer contents alone. -/
theorem c10_assert_before_write_witness :
    ({ short_name := "Name", description := "Desc", images := [imgIcon16],
        urls := [] } : OpenSearchDescription).urls = [] ∧
    OpenSearchDescription.into_nix
      { short_name := "Name", description := "Desc", images := [imgIcon16],
        urls := [] } "previous contents" =
      .panicked assertMessage "previous contents" :=
  ⟨by decide, c10_assert_before_write _ _ (by decide)⟩

theorem insertImage_perm (x : OpenSearchImage) (l : List OpenSearchImage) :
    List.Perm (insertImage x l) (x :: l) := by
  induction l with
  | nil => exact List.Perm.refl _
  | cons y ys ih =>
    by_cases h : OpenSearchImage.cmp x y = Ordering.gt
    · rw [insertImage, if_pos h]
      exact (ih.cons y).trans (List.Perm.swap x y ys)
    · rw [insertImage, if_neg h]

theorem sortImages_perm (l : List OpenSearchImage) : List.Perm (sortImages l) l := by
  induction l with
  | nil => exact List.Perm.refl _
  | cons x xs ih => exact (insertImage_perm x (sortImages xs)).trans (ih.cons x)

theorem cmp_gt_asymm (x y : OpenSearchImage)
    (h : OpenSearchImage.cmp x y = Ordering.gt) :
    OpenSearchImage.cmp y x ≠ Ordering.gt := by
  unfold OpenSearchImage.cmp at h ⊢
  by_cases ht : x.image_type = y.image_type
  · rw [if_pos ht] at h
    rw [if_pos ht.symm]
    intro hc
    rw [Nat.compare_eq_gt] at h hc
    omega
  · rw [if_neg ht] at h
    cases h

theorem chain'_insertImage (x : OpenSearchImage) :
    ∀ l : List OpenSearchImage,
    List.Chain' (fun a b => OpenSearchImage.cmp a b ≠ Ordering.gt) l →
    List.Chain' (fun a b => OpenSearchImage.cmp a b ≠ Ordering.gt) (insertImage x l) := by
  intro l
  induction l with
  | nil =>
    intro _
    simp [insertImage]
  | cons y ys ih =>
    intro h
    by_cases hc : OpenSearchImage.cmp x y = Ordering.gt
    · rw [insertImage, if_pos hc]
      have hys := h.tail
      have hin := ih hys
      cases hys2 : insertImage x ys with
      | nil => simp
      | cons z zs =>
        rw [hys2] at hin
        rw [List.chain'_cons]
        refine ⟨?_, hin⟩
        cases ys with
        | nil =>
          rw [insertImage] at hys2
          injection hys2 with h1 h2
          rw [← h1]
          exact cmp_gt_asymm x y hc
        | cons w ws =>
          rw [insertImage] at hys2
          by_cases hcw : OpenSearchImage.cmp x w = Ordering.gt
          · rw [if_pos hcw] at hys2
            injection hys2 with h1 h2
            rw [← h1]
            exact (List.chain'_cons.mp h).1
          · rw [if_neg hcw] at hys2
            injection hys2 with h1 h2
            rw [← h1]
            exact cmp_gt_asymm x y hc
    · rw [insertImage, if_neg hc]
      rw [List.chain'_cons]
      exact ⟨hc, h⟩

theorem sortImages_chain' (l : List OpenSearchImage) :
    List.Chain' (fun a b => OpenSearchImage.cmp a b ≠ Ordering.gt) (sortImages l) := by
  induction l with
  | nil => simp [sortImages]
  | cons x xs ih => exact chain'_insertImage x _ ih

/-- C3: on two images of the same MIME type the comparator does NOT use
the exact integer product: the `u16` multiplication wraps modulo `2^16`
(release; a debug build panics), so a 256×256 image compares as area `0`
and is ordered after a 16×16 image, while the exact-area comparator of
the claim orders it first; consequently icon selection picks the 16×16
image. -/
theorem c3_area_overflow :
    OpenSearchImage.cmp imgPng256 imgPng16 = Ordering.gt ∧
    cmpExactArea imgPng256 imgPng16 = Ordering.lt ∧
    selectIcon [imgPng256, imgPng16] = some imgPng16 := by
  refine ⟨?_, ?_, ?_⟩ <;> decide

/-- C4: icon selection is the head of the input stably sorted by the
comparator — the sorted list is a permutation of the input, adjacent in
comparator order (never `gt` left-to-right), and comparator-equal pairs
keep their input order; the empty input selects nothing, a singleton
selects its element, and of two same-type icons of areas 16×16 and
32×32 the 32×32 one is selected. -/
theorem c4_icon_selection :
    (∀ l, selectIcon l = (sortImages l).head?) ∧
    (∀ l, List.Perm (sortImages l) l) ∧
    (∀ l, List.Chain' (fun a b => OpenSearchImage.cmp a b ≠ Ordering.gt) (sortImages l)) ∧
    (∀ x y, OpenSearchImage.cmp x y = Ordering.eq → sortImages [x, y] = [x, y]) ∧
    selectIcon ([] : List OpenSearchImage) = none ∧
    (∀ i, selectIcon [i] = some i) ∧
    selectIcon [imgIcon16, imgIcon32] = some imgIcon32 := by
  refine ⟨fun l => rfl, sortImages_perm, sortImages_chain', ?_, rfl, fun i => rfl, by decide⟩
  intro x y h
  simp [sortImages, insertImage, h]

/-- C4 witness: two images of differing MIME types compare equal and
keep their input order through the sort. -/
theorem c4_icon_selection_witness :
    OpenSearchImage.cmp imgIcon16 imgPng16 = Ordering.eq ∧
    sortImages [imgIcon16, imgPng16] = [imgIcon16, imgPng16] :=
  ⟨by decide, c4_icon_selection.2.2.2.1 imgIcon16 imgPng16 (by decide)⟩

theorem scanHead_none (l : List HtmlElement)
    (h : ∀ c ∈ l, isOpenSearchLink c = false) : scanHead l = none := by
  induction l with
  | nil => rfl
  | cons c cs ih =>
    rw [scanHead, if_neg]
    · exact ih (fun x hx => h x (List.mem_cons_of_mem c hx))
    · simp [h c (List.mem_cons_self c cs)]

theorem scanHead_first (pre : List HtmlElement) (e : HtmlElement)
    (rest : List HtmlElement)
    (hpre : ∀ c ∈ pre, isOpenSearchLink c = false)
    (hqe : isOpenSearchLink e = true) :
    scanHead (pre ++ e :: rest) = some e := by
  induction pre with
  | nil => rw [List.nil_append, scanHead, if_pos hqe]
  | cons c cs ih =>
    rw [List.cons_append, scanHead, if_neg]
    · exact ih (fun x hx => hpre x (List.mem_cons_of_mem c hx))
    · simp [hpre c (List.mem_cons_self c cs)]

/-- C2 (counterexample): over a root with two sibling `head` elements
where only the second holds a qualifying link, the claim predicts a
`NotFound` failure; the code instead succeeds with the second `head`'s
resolved `href`. -/
theorem c2_counterexample :
    select_opensearch_url joinConcat "https://example.com" twoHeadDoc =
      .ok "https://example.com/os.xml" ∧
    select_opensearch_url joinConcat "https://example.com" twoHeadDoc ≠
      .error LocateError.NotFound := by
  have h : select_opensearch_url joinConcat "https://example.com" twoHeadDoc =
      .ok "https://example.com/os.xml" := rfl
  refine ⟨h, ?_⟩
  rw [h]
  intro hc
  exact Except.noConfusion hc

/-- C2 (amended): the locator walks all root children in order and
visits every child named `head`; the first qualifying element found in
any of them wins.  In particular, when the first `head` has no
qualifying child and a later sibling `head` holds one, the locator
returns that element's resolved `href` rather than failing with
`NotFound`. -/
theorem c2_later_heads_visited (join : String → String → Option String)
    (base rootName : String) (rootAttrs : List (String × String))
    (h1 h2 e : HtmlElement) (pre rest : List HtmlElement)
    (hh1 : h1.name = "head")
    (hq1 : ∀ c ∈ h1.children, isOpenSearchLink c = false)
    (hh2 : h2.name = "head")
    (hch : h2.children = pre ++ e :: rest)
    (hpre : ∀ c ∈ pre, isOpenSearchLink c = false)
    (hqe : isOpenSearchLink e = true)
    (href url : String)
    (hhref : e.attr "href" = some href)
    (hjoin : join base href = some url) :
    select_opensearch_url join base
      { name := rootName, attrs := rootAttrs, children := [h1, h2] } = .ok url := by
  have hs : scanRoot [h1, h2] = some e := by
    rw [scanRoot, if_pos hh1, scanHead_none h1.children hq1]
    rw [scanRoot, if_pos hh2, hch, scanHead_first pre e rest hpre hqe]
  unfold select_opensearch_url
  simp only [hs, hhref, hjoin]

/-- C2 witness: the amended statement at the concrete two-`head`
document. -/
theorem c2_later_heads_visited_witness :
    (∀ c ∈ headWithoutLink.children, isOpenSearchLink c = false) ∧
    isOpenSearchLink openSearchLink = true ∧
    select_opensearch_url joinConcat "https://example.com"
      { name := "html", attrs := [], children := [headWithoutLink, headWithLink] } =
      .ok "https://example.com/os.xml" :=
  ⟨by decide, by decide,
    c2_later_heads_visited joinConcat "https://example.com" "html" []
      headWithoutLink headWithLink openSearchLink [] []
      rfl (by decide) rfl rfl (by decide) (by decide) "/os.xml"
      "https://example.com/os.xml" rfl rfl⟩

theorem sdata_append (s t : String) : (s ++ t).data = s.data ++ t.data := rfl

theorem splitNl_ne_nil (l : List Char) : splitNl l ≠ [] := by
  induction l with
  | nil => simp [splitNl]
  | cons c cs ih =>
    rw [splitNl]
    split
    · simp
    · cases h : splitNl cs with
      | nil => exact absurd h ih
      | cons a t => simp [consFirst]

theorem noNl_iff (s : String) : noNl s = true ↔ '\n' ∉ s.data := by
  simp only [noNl, List.all_eq_true, bne_iff_ne, ne_eq]
  constructor
  · intro h hm
    exact h _ hm rfl
  · intro h c hc he
    exact h (he ▸ hc)

theorem consFirst_consFirst (c l : List Char) (s : List (List Char)) :
    consFirst c (consFirst l s) = consFirst (c ++ l) s := by
  cases s <;> simp [consFirst]

theorem splitNl_append (l r : List Char) (h : '\n' ∉ l) :
    splitNl (l ++ r) = consFirst l (splitNl r) := by
  induction l with
  | nil =>
    rw [List.nil_append]
    cases hr : splitNl r with
    | nil => exact absurd hr (splitNl_ne_nil r)
    | cons a t => simp [consFirst]
  | cons c cs ih =>
    have hc : ¬c = '\n' := by
      intro he
      exact h (he ▸ List.mem_cons_self c cs)
    have hcs : '\n' ∉ cs := fun hm => h (List.mem_cons_of_mem c hm)
    rw [List.cons_append, splitNl, if_neg hc, ih hcs, consFirst_consFirst]
    rfl

theorem splitNl_line (l r : List Char) (h : '\n' ∉ l) :
    splitNl (l ++ '\n' :: r) = l :: splitNl r := by
  rw [splitNl_append l _ h, splitNl, if_pos rfl]
  simp [consFirst]

theorem splitNl_noNl (l : List Char) (h : '\n' ∉ l) : splitNl l = [l] := by
  have hl := splitNl_append l [] h
  rw [List.append_nil] at hl
  simpa [splitNl, consFirst] using hl

theorem append_ne_of_getElem_ne (l r t : List Char) (i : Nat)
    (hi : i < l.length) (h : l[i]? ≠ t[i]?) : l ++ r ≠ t := by
  intro he
  apply h
  rw [← he, List.getElem?_append_left hi]

theorem splitNl_cons_nl (r : List Char) : splitNl ('\n' :: r) = [] :: splitNl r := by
  rw [splitNl, if_pos rfl]

theorem splitNl_cons_ne (c : Char) (r : List Char) (h : ¬c = '\n') :
    splitNl (c :: r) = consFirst [c] (splitNl r) := by
  rw [splitNl, if_neg h]

theorem pairNix_lines (p : String × String) (r : List Char)
    (h1 : '\n' ∉ p.1.data) (h2 : '\n' ∉ p.2.data) :
    splitNl ((pairNix p).data ++ r) = pairLines p ++ splitNl r := by
  simp [pairNix, pairLines, sdata_append, splitNl_cons_nl, splitNl_cons_ne,
    splitNl_append, consFirst_consFirst, consFirst, List.append_assoc, h1, h2]

theorem concatPairs_lines (ps : List (String × String)) (r : List Char)
    (h : ∀ p ∈ ps, '\n' ∉ p.1.data ∧ '\n' ∉ p.2.data) :
    splitNl ((concatMapStr pairNix ps).data ++ r)
      = (ps.map pairLines).flatten ++ splitNl r := by
  induction ps with
  | nil =>
    have he : (concatMapStr pairNix []).data = ([] : List Char) := rfl
    simp [he]
  | cons p ps ih =>
    rw [concatMapStr, sdata_append, List.append_assoc]
    rw [pairNix_lines p _ (h p (List.mem_cons_self p ps)).1
      (h p (List.mem_cons_self p ps)).2]
    rw [ih (fun q hq => h q (List.mem_cons_of_mem p hq))]
    simp [List.append_assoc]

theorem urlIntoNix_lines (u : OpenSearchUrl) (r : List Char)
    (hwf : urlNewlineFree u = true) :
    splitNl ((u.into_nix).data ++ r) = urlLines u ++ splitNl r := by
  simp only [urlNewlineFree, Bool.and_eq_true, List.all_eq_true] at hwf
  obtain ⟨⟨hmt, htb⟩, hqp⟩ := hwf
  have hmt' : '\n' ∉ u.template_type.data := (noNl_iff _).mp hmt
  have hts : (u.template.set_query none).toString = u.template.base := by
    simp [Url.toString, Url.set_query]
  have hts' : '\n' ∉ (u.template.set_query none).toString.data := by
    rw [hts]
    exact (noNl_iff _).mp htb
  have hqp' : ∀ p ∈ u.template.query_pairs, '\n' ∉ p.1.data ∧ '\n' ∉ p.2.data := by
    intro p hp
    have hb := hqp p hp
    exact ⟨(noNl_iff _).mp hb.1, (noNl_iff _).mp hb.2⟩
  cases hq : u.template.query with
  | none =>
    simp [OpenSearchUrl.into_nix, urlLines, hq, sdata_append, splitNl_cons_nl,
      splitNl_cons_ne, splitNl_append, consFirst_consFirst, consFirst,
      List.append_assoc, hts', hmt']
  | some qv =>
    have hcp := concatPairs_lines u.template.query_pairs
      ("            ];\n        \x7d\n".data ++ r) hqp'
    simp only [sdata_append, List.cons_append, List.nil_append] at hcp
    simp [OpenSearchUrl.into_nix, urlLines, hq, sdata_append, splitNl_cons_nl,
      splitNl_cons_ne, splitNl_append, consFirst_consFirst, consFirst,
      List.append_assoc, hts', hmt', hcp]

theorem splitNl_nil : splitNl ([] : List Char) = [[]] := rfl

theorem count_params_pairLines (ps : List (String × String)) :
    ((ps.map pairLines).flatten).count "            params = [".data = 0 := by
  induction ps with
  | nil => simp
  | cons p ps ih => simp [pairLines, List.count_cons, List.count_append, ih]

/-- C5: every URL block writes its `template` field with the query
stripped, and writes a `params` list holding the query pairs in order
exactly when the original URL carried a query string; with no query
string the `params` key does not occur in the block at all (its line is
absent). -/
theorem c5_template_and_params (u : OpenSearchUrl) (hwf : urlNewlineFree u = true) :
    (∀ q, u.template.query = some q →
      u.into_nix = urlBlockPrefix u ++ paramsBlock (parseQueryPairs q) ++ urlBlockSuffix) ∧
    (u.template.query = none →
      u.into_nix = urlBlockPrefix u ++ urlBlockSuffix) ∧
    lineCount "            params = [".data (u.into_nix).data
      = (if u.template.query.isSome then 1 else 0) := by
  refine ⟨?_, ?_, ?_⟩
  · intro q hq
    apply String.ext
    simp [OpenSearchUrl.into_nix, urlBlockPrefix, paramsBlock, urlBlockSuffix,
      hq, Url.query_pairs, sdata_append, List.append_assoc]
  · intro hq
    apply String.ext
    simp [OpenSearchUrl.into_nix, urlBlockPrefix, urlBlockSuffix,
      hq, sdata_append, List.append_assoc]
  · have hl := urlIntoNix_lines u [] hwf
    rw [List.append_nil] at hl
    simp only [lineCount, hl, splitNl_nil]
    cases hq : u.template.query with
    | none =>
      simp [urlLines, hq, List.count_cons, List.count_append]
    | some qv =>
      simp [urlLines, hq, List.count_cons, List.count_append]
      exact count_params_pairLines u.template.query_pairs

/-- C5 witness: the spec's own example template
`https://example.com/search?q={searchTerms}`. -/
theorem c5_template_and_params_witness :
    urlNewlineFree urlHtml = true ∧
    parseQueryPairs "q=\x7bsearchTerms\x7d" = [("q", "\x7bsearchTerms\x7d")] ∧
    urlHtml.into_nix = urlBlockPrefix urlHtml
      ++ paramsBlock (parseQueryPairs "q=\x7bsearchTerms\x7d") ++ urlBlockSuffix ∧
    lineCount "            params = [".data (urlHtml.into_nix).data = 1 :=
  ⟨by decide, by decide,
    (c5_template_and_params urlHtml (by decide)).1 _ rfl,
    by
      have h := (c5_template_and_params urlHtml (by decide)).2.2
      simpa using h⟩

/-- C9: a URL whose template carries a present-but-empty query string
(the URL ends in a bare `?`) still takes the params branch: the block
carries a `params` key bound to an empty list, because the query exists
even though it parses to zero key/value pairs. -/
theorem c9_empty_query_empty_params (u : OpenSearchUrl)
    (hq : u.template.query = some "") :
    u.template.query_pairs = [] ∧
    u.into_nix = urlBlockPrefix u ++ paramsBlock [] ++ urlBlockSuffix := by
  have he : ("" : String).data = ([] : List Char) := rfl
  have hp : u.template.query_pairs = [] := by
    simp [Url.query_pairs, hq, parseQueryPairs, he, splitAmp]
  refine ⟨hp, ?_⟩
  apply String.ext
  simp [OpenSearchUrl.into_nix, urlBlockPrefix, paramsBlock, urlBlockSuffix,
    hq, hp, concatMapStr, sdata_append, List.append_assoc]

/-- C9 witness: the concrete template `https://example.com/search?`. -/
theorem c9_empty_query_empty_params_witness :
    urlEmptyQuery.template.query = some "" ∧
    urlEmptyQuery.template.query_pairs = [] ∧
    urlEmptyQuery.into_nix =
      urlBlockPrefix urlEmptyQuery ++ paramsBlock [] ++ urlBlockSuffix :=
  ⟨rfl, (c9_empty_query_empty_params urlEmptyQuery rfl).1,
    (c9_empty_query_empty_params urlEmptyQuery rfl).2⟩

theorem concatUrls_lines (us : List OpenSearchUrl) (r : List Char)
    (h : ∀ u ∈ us, urlNewlineFree u = true) :
    splitNl ((concatMapStr OpenSearchUrl.into_nix us).data ++ r)
      = (us.map urlLines).flatten ++ splitNl r := by
  induction us with
  | nil =>
    have he : (concatMapStr OpenSearchUrl.into_nix []).data = ([] : List Char) := rfl
    simp [he]
  | cons u us ih =>
    rw [concatMapStr, sdata_append, List.append_assoc]
    rw [urlIntoNix_lines u _ (h u (List.mem_cons_self u us))]
    rw [ih (fun v hv => h v (List.mem_cons_of_mem u hv))]
    simp [List.append_assoc]

theorem selectIcon_mem (l : List OpenSearchImage) (i : OpenSearchImage)
    (h : selectIcon l = some i) : i ∈ l := by
  unfold selectIcon at h
  have hm : i ∈ sortImages l := by
    cases hs : sortImages l with
    | nil => rw [hs] at h; cases h
    | cons a t =>
      rw [hs] at h
      rw [List.head?_cons] at h
      injection h with he
      rw [← he]
      exact List.mem_cons_self a t
  exact ((sortImages_perm l).mem_iff).mp hm

theorem nixBody_lines (d : OpenSearchDescription) (hwf : newlineFree d = true) :
    splitNl (d.nixBody).data = descLines d := by
  simp only [newlineFree, Bool.and_eq_true, List.all_eq_true] at hwf
  obtain ⟨⟨⟨hsn, hdsc⟩, hus⟩, him⟩ := hwf
  have hsn2 : '\n' ∉ d.short_name.data := (noNl_iff _).mp hsn
  have hdsc2 : '\n' ∉ d.description.data := (noNl_iff _).mp hdsc
  cases hsel : selectIcon d.images with
  | none =>
    have hcu := concatUrls_lines d.urls
      ("    ];\n    description = \"".data
        ++ (d.description.data ++ "\";\n\x7d;".data)) hus
    simp only [sdata_append, List.cons_append, List.nil_append] at hcu
    simp [OpenSearchDescription.nixBody, descLines, hsel, sdata_append,
      splitNl_cons_nl, splitNl_cons_ne, splitNl_append, splitNl_nil,
      consFirst_consFirst, consFirst, List.append_assoc, hsn2, hdsc2, hcu]
  | some i =>
    have hiu : '\n' ∉ (Url.toString i.url).data :=
      (noNl_iff _).mp (him i (selectIcon_mem d.images i hsel))
    have hcu := concatUrls_lines d.urls
      ("    ];\n    iconUpdateURL = \"".data
        ++ ((Url.toString i.url).data
          ++ ("\";\n    description = \"".data
            ++ (d.description.data ++ "\";\n\x7d;".data)))) hus
    simp only [sdata_append, List.cons_append, List.nil_append] at hcu
    simp [OpenSearchDescription.nixBody, OpenSearchImage.into_nix, descLines, hsel,
      sdata_append, splitNl_cons_nl, splitNl_cons_ne, splitNl_append, splitNl_nil,
      consFirst_consFirst, consFirst, List.append_assoc, hsn2, hdsc2, hiu, hcu]

theorem count_flatten_zero (t : List Char) (ls : List (List (List Char)))
    (h : ∀ l ∈ ls, l.count t = 0) : ls.flatten.count t = 0 := by
  induction ls with
  | nil => simp
  | cons l ls ih =>
    rw [List.flatten_cons, List.count_append, h l (List.mem_cons_self l ls),
      ih (fun x hx => h x (List.mem_cons_of_mem l hx))]

theorem count_flatten_one (t : List Char) (ls : List (List (List Char)))
    (h : ∀ l ∈ ls, l.count t = 1) : ls.flatten.count t = ls.length := by
  induction ls with
  | nil => simp
  | cons l ls ih =>
    rw [List.flatten_cons, List.count_append, h l (List.mem_cons_self l ls),
      ih (fun x hx => h x (List.mem_cons_of_mem l hx)), List.length_cons]
    omega

theorem count_urlLines_brace (u : OpenSearchUrl) :
    (urlLines u).count "        \x7b".data = 1 := by
  cases hq : u.template.query with
  | none => simp [urlLines, hq, List.count_cons, List.count_append]
  | some qv =>
    simp [urlLines, hq, List.count_cons, List.count_append]
    exact count_flatten_zero _ _ (by
      intro l hl
      rcases List.mem_map.mp hl with ⟨p, hp, rfl⟩
      simp [pairLines, List.count_cons])

theorem count_urlLines_urlsline (u : OpenSearchUrl) :
    (urlLines u).count "    urls = [".data = 0 := by
  cases hq : u.template.query with
  | none => simp [urlLines, hq, List.count_cons, List.count_append]
  | some qv =>
    simp [urlLines, hq, List.count_cons, List.count_append]
    exact count_flatten_zero _ _ (by
      intro l hl
      rcases List.mem_map.mp hl with ⟨p, hp, rfl⟩
      simp [pairLines, List.count_cons])

/-- C8: for a descriptor with at least one URL template, `into_nix`
appends the body to the buffer, the body embeds the URL blocks in input
order (not sorted), the emitted text holds exactly one `urls = [` line,
and the number of URL-entry opener lines equals the number of URL
templates. -/
theorem c8_single_urls_block (d : OpenSearchDescription) (hne : d.urls ≠ [])
    (hwf : newlineFree d = true) (buf : String) :
    d.into_nix buf = .done (buf ++ d.nixBody) ∧
    (∃ pre post,
      d.nixBody = pre ++ concatMapStr OpenSearchUrl.into_nix d.urls ++ post) ∧
    lineCount "    urls = [".data (d.nixBody).data = 1 ∧
    lineCount "        \x7b".data (d.nixBody).data = d.urls.length := by
  have hl := nixBody_lines d hwf
  refine ⟨?_, ?_, ?_, ?_⟩
  · have he : d.urls.isEmpty = false := by
      cases hu : d.urls with
      | nil => exact absurd hu hne
      | cons a l => rfl
    simp [OpenSearchDescription.into_nix, he]
  · refine ⟨"\"" ++ d.short_name ++ "\" = \x7b\n    urls = [\n",
      "    ];\n"
        ++ (match selectIcon d.images with
            | some image => image.into_nix
            | none => "")
        ++ ("    description = \"" ++ d.description ++ "\";\n\x7d;"), ?_⟩
    apply String.ext
    simp [OpenSearchDescription.nixBody, sdata_append, List.append_assoc]
  · simp only [lineCount, hl]
    have hz := count_flatten_zero ("    urls = [".data) (d.urls.map urlLines) (by
      intro l hm
      rcases List.mem_map.mp hm with ⟨u, hu, rfl⟩
      exact count_urlLines_urlsline u)
    cases hsel : selectIcon d.images with
    | none => simp [descLines, hsel, List.count_cons, List.count_append, hz]
    | some i => simp [descLines, hsel, List.count_cons, List.count_append, hz]
  · simp only [lineCount, hl]
    have ho := count_flatten_one ("        \x7b".data) (d.urls.map urlLines) (by
      intro l hm
      rcases List.mem_map.mp hm with ⟨u, hu, rfl⟩
      exact count_urlLines_brace u)
    rw [List.length_map] at ho
    cases hsel : selectIcon d.images with
    | none => simp [descLines, hsel, List.count_cons, List.count_append, ho]
    | some i => simp [descLines, hsel, List.count_cons, List.count_append, ho]

/-- C8 witness: a descriptor with two URL templates and two icons emits
one `urls` block with two entries. -/
theorem c8_single_urls_block_witness :
    descExample.urls ≠ [] ∧ newlineFree descExample = true ∧
    (lineCount "    urls = [".data (descExample.nixBody).data = 1 ∧
      lineCount "        \x7b".data (descExample.nixBody).data =
        descExample.urls.length) :=
  ⟨by decide, by decide,
    (c8_single_urls_block descExample (by decide) (by decide) "").2.2⟩

end OpenSearch
